import Mathlib

set_option maxHeartbeats 1000000

/-!
Verification of the provisioning topic layer (src/provisioning/topics.rs).

Topic strings are modelled as `List Char`.  The Rust iterator
`s.splitn(6, '/')` is embedded as the structural function `splitn`, and the
full segmentation of a string (used only to state grammar-level facts in the
wording of the design document) as `splitAll`.
-/

/-- Rust `s.splitn(n, sep)`: at most `n` pieces, the last piece keeping the
unsplit remainder of the string. -/
def splitn : Nat → Char → List Char → List (List Char)
  | 0, _, _ => []
  | 1, _, cs => [cs]
  | _ + 2, _, [] => [[]]
  | n + 2, sep, c :: cs =>
    if c = sep then [] :: splitn (n + 1) sep cs
    else
      match splitn (n + 2) sep cs with
      | [] => [[c]]
      | a :: rest => (c :: a) :: rest

/-- Full separator split of a string into its segments (unbounded piece
count); the reference segmentation used to state grammar facts. -/
def splitAll (sep : Char) : List Char → List (List Char)
  | [] => [[]]
  | c :: cs =>
    if c = sep then [] :: splitAll sep cs
    else
      match splitAll sep cs with
      | [] => [[c]]
      | a :: rest => (c :: a) :: rest

/-- Interleave the separator between segments (inverse of the splits). -/
def joinSep (sep : Char) : List (List Char) → List Char
  | [] => []
  | [a] => a
  | a :: b :: rest => a ++ sep :: joinSep sep (b :: rest)

/-- What `splitn (n+1)` computes, expressed on the full segmentation: if
there are at most `n+1` segments they are all kept, otherwise the first `n`
are kept and the remaining ones stay joined in the final piece. -/
def capSegs (n : Nat) (sep : Char) (parts : List (List Char)) : List (List Char) :=
  if parts.length ≤ n + 1 then parts
  else parts.take n ++ [joinSep sep (parts.drop n)]

/-- `Direction` (topics.rs lines 10-14). -/
inductive Direction where
  | incoming
  | outgoing
deriving DecidableEq

/-- `PayloadFormat` (topics.rs lines 16-20). -/
inductive PayloadFormat where
  | cbor
  | json
deriving DecidableEq

/-- `impl Display for PayloadFormat` (topics.rs lines 22-29). -/
def PayloadFormat.render : PayloadFormat → List Char
  | .cbor => "cbor".toList
  | .json => "json".toList

/-- `impl FromStr for PayloadFormat` (topics.rs lines 31-41); the `Err(())`
case is modelled as `none`. -/
def PayloadFormat.fromStr (s : List Char) : Option PayloadFormat :=
  if s = "cbor".toList then some .cbor
  else if s = "json".toList then some .json
  else none

/-- `Topic` (topics.rs lines 43-73); the borrowed template-name slice is a
`List Char`. -/
inductive Topic where
  | registerThing (templateName : List Char) (fmt : PayloadFormat)
  | createKeysAndCertificate (fmt : PayloadFormat)
  | createCertificateFromCsr (fmt : PayloadFormat)
  | registerThingAccepted (templateName : List Char) (fmt : PayloadFormat)
  | registerThingRejected (templateName : List Char) (fmt : PayloadFormat)
  | createKeysAndCertificateAccepted (fmt : PayloadFormat)
  | createKeysAndCertificateRejected (fmt : PayloadFormat)
  | createCertificateFromCsrAccepted (fmt : PayloadFormat)
  | createCertificateFromCsrRejected (fmt : PayloadFormat)
deriving DecidableEq

/-- Modelled from the spec: the provisioning module error enum
(`super::Error`) is declared outside topics.rs; only the `Overflow` variant
(formatted output exceeds the fixed buffer) and the MQTT transport failure
variant reach the code under verification. -/
inductive Error where
  | overflow
  | mqtt
deriving DecidableEq

/-- Modelled from the spec: `mqttrust::QoS`, the MQTT quality-of-service
level attached to a subscription (external crate). -/
inductive QoS where
  | atMostOnce
  | atLeastOnce
  | exactlyOnce
deriving DecidableEq

namespace Topic

/-- `Topic::CERT_PREFIX` (topics.rs line 76). -/
def certRoot : List Char := "$aws/certificates".toList

/-- `Topic::PROVISIONING_PREFIX` (topics.rs line 77). -/
def provisioningRoot : List Char := "$aws/provisioning-templates".toList

/-- `Topic::check` (topics.rs lines 79-81). -/
def check (s : List Char) : Bool :=
  certRoot.isPrefixOf s || provisioningRoot.isPrefixOf s

/-- The match of `Topic::from_str` (topics.rs lines 85-139) on the result of
the `splitn(6, '/')` segmentation.  The Rust `PayloadFormat::from_str(..).ok()?`
propagation is `Option.map` because the surrounding expression immediately
wraps the parsed format in `Some`. -/
def fromSegments (tt : List (List Char)) : Option Topic :=
  if tt.get? 0 = some "$aws".toList then
    if tt.get? 1 = some "provisioning-templates".toList then
      match tt.get? 2, tt.get? 3, tt.get? 4, tt.get? 5 with
      | some templateName, some p, some payloadFmt, some tail =>
        if p = "provision".toList then
          if tail = "accepted".toList then
            (PayloadFormat.fromStr payloadFmt).map (Topic.registerThingAccepted templateName)
          else if tail = "rejected".toList then
            (PayloadFormat.fromStr payloadFmt).map (Topic.registerThingRejected templateName)
          else none
        else none
      | _, _, _, _ => none
    else if tt.get? 1 = some "certificates".toList then
      match tt.get? 2, tt.get? 3, tt.get? 4 with
      | some op, some payloadFmt, some tail =>
        if op = "create".toList then
          if tail = "accepted".toList then
            (PayloadFormat.fromStr payloadFmt).map Topic.createKeysAndCertificateAccepted
          else if tail = "rejected".toList then
            (PayloadFormat.fromStr payloadFmt).map Topic.createKeysAndCertificateRejected
          else none
        else if op = "create-from-csr".toList then
          if tail = "accepted".toList then
            (PayloadFormat.fromStr payloadFmt).map Topic.createCertificateFromCsrAccepted
          else if tail = "rejected".toList then
            (PayloadFormat.fromStr payloadFmt).map Topic.createCertificateFromCsrRejected
          else none
        else none
      | _, _, _ => none
    else none
  else none

/-- `Topic::from_str` (topics.rs lines 83-140). -/
def fromStr (s : List Char) : Option Topic :=
  fromSegments (splitn 6 ('/' : Char) s)

/-- `Topic::direction` (topics.rs lines 142-153). -/
def direction : Topic → Direction
  | .registerThing _ _ => .outgoing
  | .createKeysAndCertificate _ => .outgoing
  | .createCertificateFromCsr _ => .outgoing
  | _ => .incoming

/-- The character sequence written by `Topic::format` (topics.rs lines
155-211).  Note: the source's `CreateCertificateFromCsrAccepted` and
`CreateCertificateFromCsrRejected` arms (lines 201-206) write no
`/accepted` or `/rejected` suffix; this is reproduced verbatim. -/
def renderChars : Topic → List Char
  | .registerThing name fmt =>
      provisioningRoot ++ '/' :: name ++ "/provision/".toList ++ fmt.render
  | .registerThingAccepted name fmt =>
      provisioningRoot ++ '/' :: name ++ "/provision/".toList ++ fmt.render
        ++ "/accepted".toList
  | .registerThingRejected name fmt =>
      provisioningRoot ++ '/' :: name ++ "/provision/".toList ++ fmt.render
        ++ "/rejected".toList
  | .createKeysAndCertificate fmt =>
      certRoot ++ "/create/".toList ++ fmt.render
  | .createKeysAndCertificateAccepted fmt =>
      certRoot ++ "/create/".toList ++ fmt.render ++ "/accepted".toList
  | .createKeysAndCertificateRejected fmt =>
      certRoot ++ "/create/".toList ++ fmt.render ++ "/rejected".toList
  | .createCertificateFromCsr fmt =>
      certRoot ++ "/create-from-csr/".toList ++ fmt.render
  | .createCertificateFromCsrAccepted fmt =>
      certRoot ++ "/create-from-csr/".toList ++ fmt.render
  | .createCertificateFromCsrRejected fmt =>
      certRoot ++ "/create-from-csr/".toList ++ fmt.render

/-- `Topic::format::<L>` (topics.rs lines 155-211): writing into a
`heapless::String<L>` succeeds exactly when the rendered topic fits within
the capacity `L`, otherwise `Error::Overflow`. -/
def format (L : Nat) (t : Topic) : Except Error (List Char) :=
  if t.renderChars.length ≤ L then .ok t.renderChars else .error .overflow

end Topic

/-- `Subscribe<'a, N>` (topics.rs lines 214-217); the `heapless::Vec` is a
list whose length is kept at or below `N` by the operations. -/
structure Subscribe (N : Nat) where
  topics : List (Topic × QoS)
deriving DecidableEq

/-- `Subscribe::new` (topics.rs lines 220-222). -/
def Subscribe.new (N : Nat) : Subscribe N := ⟨[]⟩

/-- `Subscribe::topic` (topics.rs lines 224-238): outgoing topics and
duplicates are dropped, and `push(..).ok()` silently drops the entry when
the vector is full. -/
def Subscribe.topic {N : Nat} (b : Subscribe N) (t : Topic) (q : QoS) : Subscribe N :=
  if t.direction ≠ Direction.incoming then b
  else if b.topics.any (fun p => decide (p.1 = t)) then b
  else if b.topics.length < N then ⟨b.topics ++ [(t, q)]⟩
  else b

/-- The formatting pass of `Subscribe::topics` (topics.rs lines 240-245):
each stored topic is formatted into a capacity-`L` string, failing fast on
the first `Overflow`. -/
def formatTopicsQ (L : Nat) : List (Topic × QoS) → Except Error (List (List Char × QoS))
  | [] => .ok []
  | (t, q) :: rest =>
    match t.format L with
    | .error e => .error e
    | .ok s =>
      match formatTopicsQ L rest with
      | .error e => .error e
      | .ok tl => .ok ((s, q) :: tl)

/-- `Subscribe::topics` (topics.rs lines 240-245); the buffer capacity is 128. -/
def Subscribe.topicsFmt {N : Nat} (b : Subscribe N) : Except Error (List (List Char × QoS)) :=
  formatTopicsQ 128 b.topics

/-- Rust slice `chunks(5)`: maximal runs of 5 consecutive elements, the last
chunk possibly shorter, no chunk for the empty slice. -/
def chunks5 {α : Type} : List α → List (List α)
  | [] => []
  | a :: rest => ((a :: rest).take 5) :: chunks5 (rest.drop 4)
termination_by l => l.length
decreasing_by
  simp only [List.length_drop, List.length_cons]
  omega

/-- `Subscribe::send` (topics.rs lines 247-268).  The MQTT collaborator is
modelled as a recorder: the result collects, in order, the topic batch
passed to each `subscribe` call. -/
def Subscribe.send {N : Nat} (b : Subscribe N) :
    Except Error (List (List (List Char × QoS))) :=
  if b.topics = [] then .ok []
  else
    match b.topicsFmt with
    | .error e => .error e
    | .ok paths => .ok (chunks5 paths)

/-- `Unsubscribe<'a, N>` (topics.rs lines 271-274). -/
structure Unsubscribe (N : Nat) where
  topics : List Topic
deriving DecidableEq

/-- `Unsubscribe::new` (topics.rs lines 277-279). -/
def Unsubscribe.new (N : Nat) : Unsubscribe N := ⟨[]⟩

/-- `Unsubscribe::topic` (topics.rs lines 281-294). -/
def Unsubscribe.topic {N : Nat} (b : Unsubscribe N) (t : Topic) : Unsubscribe N :=
  if t.direction ≠ Direction.incoming then b
  else if b.topics.any (fun x => decide (x = t)) then b
  else if b.topics.length < N then ⟨b.topics ++ [t]⟩
  else b

/-- The formatting pass of `Unsubscribe::topics` (topics.rs lines 296-301). -/
def formatTopicsU (L : Nat) : List Topic → Except Error (List (List Char))
  | [] => .ok []
  | t :: rest =>
    match t.format L with
    | .error e => .error e
    | .ok s =>
      match formatTopicsU L rest with
      | .error e => .error e
      | .ok tl => .ok (s :: tl)

/-- `Unsubscribe::topics` (topics.rs lines 296-301); the buffer capacity is 256. -/
def Unsubscribe.topicsFmt {N : Nat} (b : Unsubscribe N) : Except Error (List (List Char)) :=
  formatTopicsU 256 b.topics

/-- `Unsubscribe::send` (topics.rs lines 303-316), with the MQTT
collaborator modelled as a recorder of `unsubscribe` batches. -/
def Unsubscribe.send {N : Nat} (b : Unsubscribe N) :
    Except Error (List (List (List Char))) :=
  if b.topics = [] then .ok []
  else
    match b.topicsFmt with
    | .error e => .error e
    | .ok paths => .ok (chunks5 paths)

/-- Folding a call sequence into a fresh `Subscribe` builder. -/
def Subscribe.ofCalls (N : Nat) (calls : List (Topic × QoS)) : Subscribe N :=
  calls.foldl (fun b p => b.topic p.1 p.2) (Subscribe.new N)

/-- Folding a call sequence into a fresh `Unsubscribe` builder. -/
def Unsubscribe.ofCalls (N : Nat) (calls : List Topic) : Unsubscribe N :=
  calls.foldl (fun b t => b.topic t) (Unsubscribe.new N)

/-- A `<fmt>` topic segment of the wire grammar: `cbor` or `json`. -/
def fmtSegment (f : List Char) : Bool :=
  decide (f = "cbor".toList) || decide (f = "json".toList)

/-- A response tail segment of the wire grammar: `accepted` or `rejected`. -/
def isRespTail (x : List Char) : Bool :=
  decide (x = "accepted".toList) || decide (x = "rejected".toList)

/-- The six incoming topic shapes of the wire grammar (design document §6),
decided on the full segmentation of the string. -/
def grammarSegments : List (List Char) → Bool
  | [a, b, _, p, f, tl] =>
      decide (a = "$aws".toList) && decide (b = "provisioning-templates".toList) &&
      decide (p = "provision".toList) && fmtSegment f && isRespTail tl
  | [a, b, op, f, tl] =>
      decide (a = "$aws".toList) && decide (b = "certificates".toList) &&
      (decide (op = "create".toList) || decide (op = "create-from-csr".toList)) &&
      fmtSegment f && isRespTail tl
  | _ => false

/-- The six incoming topic shapes of the wire grammar. -/
def specGrammar (s : List Char) : Bool :=
  grammarSegments (splitAll ('/' : Char) s)

/-- The segment shapes that the parser actually accepts: the six grammar
shapes, with certificate-family shapes additionally tolerating arbitrary
extra trailing segments. -/
def grammarExtSegments : List (List Char) → Bool
  | a :: b :: rest =>
    if a = "$aws".toList ∧ b = "provisioning-templates".toList then
      match rest with
      | [_, p, f, tl] => decide (p = "provision".toList) && fmtSegment f && isRespTail tl
      | _ => false
    else if a = "$aws".toList ∧ b = "certificates".toList then
      match rest with
      | op :: f :: tl :: _ =>
        (decide (op = "create".toList) || decide (op = "create-from-csr".toList)) &&
        fmtSegment f && isRespTail tl
      | _ => false
    else false
  | _ => false

/-- A sample builder holding seven distinct incoming topics (used to
instantiate the batching statement). -/
def subSeven : Subscribe 7 :=
  ⟨[(Topic.registerThingAccepted "a".toList PayloadFormat.json, QoS.atMostOnce),
    (Topic.registerThingAccepted "b".toList PayloadFormat.json, QoS.atMostOnce),
    (Topic.registerThingAccepted "c".toList PayloadFormat.json, QoS.atMostOnce),
    (Topic.registerThingAccepted "d".toList PayloadFormat.json, QoS.atMostOnce),
    (Topic.registerThingAccepted "e".toList PayloadFormat.json, QoS.atMostOnce),
    (Topic.registerThingAccepted "f".toList PayloadFormat.json, QoS.atMostOnce),
    (Topic.registerThingAccepted "g".toList PayloadFormat.json, QoS.atMostOnce)]⟩

/-- The formatted paths of `subSeven`. -/
def subSevenPaths : List (List Char × QoS) :=
  subSeven.topics.map (fun p => (p.1.renderChars, p.2))

/-- The single-step invariant of `Subscribe::topic`: length bound, key
distinctness and incoming-only membership are each preserved. -/
def SubscribeInv {N : Nat} (b : Subscribe N) : Prop :=
  b.topics.length ≤ N ∧ (b.topics.map Prod.fst).Nodup ∧
    ∀ p ∈ b.topics, (p : Topic × QoS).1.direction = Direction.incoming

/-- The single-step invariant of `Unsubscribe::topic`. -/
def UnsubscribeInv {N : Nat} (b : Unsubscribe N) : Prop :=
  b.topics.length ≤ N ∧ b.topics.Nodup ∧
    ∀ t ∈ b.topics, Topic.direction t = Direction.incoming

/-! ### Properties of the segmentation functions -/

theorem splitAll_ne_nil (sep : Char) (cs : List Char) : splitAll sep cs ≠ [] := by
  cases cs with
  | nil => simp [splitAll]
  | cons c cs =>
    simp only [splitAll]
    split
    · simp
    · split <;> simp

theorem joinSep_cons (sep c : Char) (a : List Char) (rest : List (List Char)) :
    joinSep sep ((c :: a) :: rest) = c :: joinSep sep (a :: rest) := by
  cases rest <;> simp [joinSep]

theorem joinSep_nil_cons (sep : Char) (l : List (List Char)) (h : l ≠ []) :
    joinSep sep ([] :: l) = sep :: joinSep sep l := by
  cases l with
  | nil => exact absurd rfl h
  | cons a rest => simp [joinSep]

theorem joinSep_splitAll (sep : Char) (cs : List Char) :
    joinSep sep (splitAll sep cs) = cs := by
  induction cs with
  | nil => simp [splitAll, joinSep]
  | cons c cs ih =>
    simp only [splitAll]
    by_cases hc : c = sep
    · simp only [if_pos hc]
      rw [joinSep_nil_cons sep _ (splitAll_ne_nil sep cs), ih, hc]
    · simp only [if_neg hc]
      rcases hP : splitAll sep cs with _ | ⟨a, rest⟩
      · exact absurd hP (splitAll_ne_nil sep cs)
      · rw [joinSep_cons]
        rw [hP] at ih
        rw [ih]

theorem splitn_ne_nil (n : Nat) (sep : Char) (cs : List Char) :
    splitn (n + 1) sep cs ≠ [] := by
  match n, cs with
  | 0, cs => simp [splitn]
  | m + 1, [] => simp [splitn]
  | m + 1, c :: cs =>
    simp only [splitn]
    split
    · simp
    · split <;> simp

theorem joinSep_splitn (sep : Char) (cs : List Char) :
    ∀ n, joinSep sep (splitn (n + 1) sep cs) = cs := by
  induction cs with
  | nil =>
    intro n
    match n with
    | 0 => simp [splitn, joinSep]
    | m + 1 => simp [splitn, joinSep]
  | cons c cs ih =>
    intro n
    match n with
    | 0 => simp [splitn, joinSep]
    | m + 1 =>
      simp only [splitn]
      by_cases hc : c = sep
      · simp only [if_pos hc]
        rw [joinSep_nil_cons sep _ (splitn_ne_nil m sep cs), ih m, hc]
      · simp only [if_neg hc]
        rcases hP : splitn (m + 2) sep cs with _ | ⟨a, rest⟩
        · exact absurd hP (splitn_ne_nil (m + 1) sep cs)
        · rw [joinSep_cons]
          have := ih (m + 1)
          rw [hP] at this
          rw [this]

theorem splitn_eq_capSegs (sep : Char) (cs : List Char) :
    ∀ n, splitn (n + 1) sep cs = capSegs n sep (splitAll sep cs) := by
  induction cs with
  | nil =>
    intro n
    have h1 : splitAll sep ([] : List Char) = [[]] := by simp [splitAll]
    match n with
    | 0 => simp [splitn, capSegs, h1]
    | m + 1 => simp [splitn, capSegs, h1]
  | cons c cs ih =>
    intro n
    by_cases hc : c = sep
    · -- head character is the separator
      have hall : splitAll sep (c :: cs) = [] :: splitAll sep cs := by
        simp [splitAll, hc]
      rcases hP : splitAll sep cs with _ | ⟨a, R⟩
      · exact absurd hP (splitAll_ne_nil sep cs)
      match n with
      | 0 =>
        -- splitn 1 keeps everything in one piece
        have hjoin : joinSep sep ([] :: a :: R) = sep :: cs := by
          rw [joinSep_nil_cons sep _ (by simp)]
          have := joinSep_splitAll sep cs
          rw [hP] at this
          rw [this]
        simp only [splitn, capSegs, hall, hP]
        simp only [List.length_cons, List.take_zero, List.drop_zero, List.nil_append]
        rw [if_neg (by simp), hjoin, hc]
      | m + 1 =>
        have hstep : splitn (m + 2) sep (c :: cs) = [] :: splitn (m + 1) sep cs := by
          simp [splitn, hc]
        rw [hstep, ih m, hall, hP, capSegs, capSegs]
        by_cases hlen : (a :: R).length ≤ m + 1
        · rw [if_pos hlen, if_pos (by simp at hlen ⊢; omega)]
        · rw [if_neg hlen, if_neg (by simp at hlen ⊢; omega)]
          simp only [List.length_cons] at hlen
          simp only [List.take_succ_cons, List.drop_succ_cons, List.cons_append]
    · -- head character is ordinary
      rcases hP : splitAll sep cs with _ | ⟨a, R⟩
      · exact absurd hP (splitAll_ne_nil sep cs)
      have hall : splitAll sep (c :: cs) = (c :: a) :: R := by
        simp only [splitAll, if_neg hc, hP]
      match n with
      | 0 =>
        have hjoin : joinSep sep (a :: R) = cs := by
          have := joinSep_splitAll sep cs
          rw [hP] at this
          exact this
        rcases R with _ | ⟨b, R'⟩
        · -- a single segment: cs = a
          simp only [joinSep] at hjoin
          simp [splitn, capSegs, hall, hjoin]
        · simp only [splitn, capSegs, hall]
          rw [if_neg (by simp)]
          simp only [List.length_cons, List.take_zero, List.drop_zero, List.nil_append]
          rw [joinSep_cons, hjoin]
      | m + 1 =>
        have hrec := ih (m + 1)
        rcases hS : splitn (m + 2) sep cs with _ | ⟨h0, tl0⟩
        · exact absurd hS (splitn_ne_nil (m + 1) sep cs)
        have hstep : splitn (m + 2) sep (c :: cs) = (c :: h0) :: tl0 := by
          simp only [splitn, if_neg hc, hS]
        rw [hstep, hall, capSegs]
        rw [hS, hP, capSegs] at hrec
        by_cases hlen : (a :: R).length ≤ m + 2
        · rw [if_pos hlen] at hrec
          rw [if_pos (by simpa using hlen)]
          rw [List.cons.injEq] at hrec
          rw [hrec.1, hrec.2]
        · rw [if_neg hlen] at hrec
          rw [if_neg (by simpa using hlen)]
          simp only [List.take_succ_cons, List.drop_succ_cons, List.cons_append] at hrec ⊢
          rw [List.cons.injEq] at hrec
          rw [hrec.1, hrec.2]

theorem isSome_pfFromStr (f : List Char) :
    (PayloadFormat.fromStr f).isSome = fmtSegment f := by
  simp only [PayloadFormat.fromStr, fmtSegment]
  split_ifs <;> simp_all

theorem sep_mem_joinSep (sep : Char) (u v : List Char) (R : List (List Char)) :
    sep ∈ joinSep sep (u :: v :: R) := by
  simp [joinSep]

theorem fromSegments_isSome_eq (tt : List (List Char)) (hlen : tt.length ≤ 6) :
    (Topic.fromSegments tt).isSome = grammarExtSegments tt := by
  rcases tt with _ | ⟨a, _ | ⟨b, _ | ⟨c, _ | ⟨d, _ | ⟨e, _ | ⟨f, _ | ⟨g, rest⟩⟩⟩⟩⟩⟩⟩
  · simp [Topic.fromSegments, grammarExtSegments]
  · simp only [Topic.fromSegments, grammarExtSegments, List.get?]
    split_ifs <;> simp_all
  · simp only [Topic.fromSegments, grammarExtSegments, List.get?]
    split_ifs <;> simp_all
  · simp only [Topic.fromSegments, grammarExtSegments, List.get?]
    split_ifs <;> simp_all
  · simp only [Topic.fromSegments, grammarExtSegments, List.get?]
    split_ifs <;> simp_all
  · simp only [Topic.fromSegments, grammarExtSegments, List.get?]
    split_ifs <;>
      simp_all [isSome_pfFromStr, fmtSegment, isRespTail, Option.isSome_map]
  · simp only [Topic.fromSegments, grammarExtSegments, List.get?]
    split_ifs <;>
      simp_all [isSome_pfFromStr, fmtSegment, isRespTail, Option.isSome_map]
  · simp at hlen

theorem fromSegments_capSegs_isSome_eq (P : List (List Char)) (h7 : 7 ≤ P.length) :
    (Topic.fromSegments (capSegs 5 ('/' : Char) P)).isSome = grammarExtSegments P := by
  rcases P with _ | ⟨a, _ | ⟨b, _ | ⟨c, _ | ⟨d, _ | ⟨e, _ | ⟨x, _ | ⟨y, R⟩⟩⟩⟩⟩⟩⟩ <;>
    simp only [List.length_cons, List.length_nil] at h7 <;> try omega
  have hcap : capSegs 5 ('/' : Char) (a :: b :: c :: d :: e :: x :: y :: R)
      = [a, b, c, d, e, joinSep ('/' : Char) (x :: y :: R)] := by
    rw [capSegs, if_neg (by simp)]
    simp
  rw [hcap]
  have hJ : ('/' : Char) ∈ joinSep ('/' : Char) (x :: y :: R) :=
    sep_mem_joinSep ('/' : Char) x y R
  have hJa : joinSep ('/' : Char) (x :: y :: R) ≠ "accepted".toList := by
    intro h
    rw [h] at hJ
    revert hJ
    decide
  have hJr : joinSep ('/' : Char) (x :: y :: R) ≠ "rejected".toList := by
    intro h
    rw [h] at hJ
    revert hJ
    decide
  simp only [Topic.fromSegments, grammarExtSegments, List.get?]
  split_ifs <;>
    simp_all [isSome_pfFromStr, fmtSegment, isRespTail, Option.isSome_map]

theorem fromStr_isSome_eq (s : List Char) :
    (Topic.fromStr s).isSome = grammarExtSegments (splitAll ('/' : Char) s) := by
  rw [Topic.fromStr,
    show splitn 6 ('/' : Char) s = capSegs 5 ('/' : Char) (splitAll ('/' : Char) s) from
      splitn_eq_capSegs ('/' : Char) s 5]
  by_cases h : (splitAll ('/' : Char) s).length ≤ 6
  · rw [show capSegs 5 ('/' : Char) (splitAll ('/' : Char) s) = splitAll ('/' : Char) s from
      if_pos h]
    exact fromSegments_isSome_eq _ h
  · exact fromSegments_capSegs_isSome_eq _ (by omega)

theorem pf_roundtrip (fmt : PayloadFormat) :
    PayloadFormat.fromStr fmt.render = some fmt := by
  cases fmt <;> decide

theorem sep_notMem_render (fmt : PayloadFormat) : ('/' : Char) ∉ fmt.render := by
  cases fmt <;> decide

theorem splitn_sep_cons (n : Nat) (sep : Char) (a rest : List Char) (ha : sep ∉ a) :
    splitn (n + 2) sep (a ++ sep :: rest) = a :: splitn (n + 1) sep rest := by
  induction a with
  | nil => simp [splitn]
  | cons c a ih =>
    have hc : ¬c = sep := by
      intro h
      exact ha (h ▸ List.mem_cons_self c a)
    have ha' : sep ∉ a := fun h => ha (List.mem_cons_of_mem c h)
    rw [List.cons_append]
    rw [show splitn (n + 2) sep (c :: (a ++ sep :: rest))
        = if c = sep then [] :: splitn (n + 1) sep (a ++ sep :: rest)
          else match splitn (n + 2) sep (a ++ sep :: rest) with
            | [] => [[c]]
            | x :: r => (c :: x) :: r from rfl]
    rw [if_neg hc, ih ha']

theorem splitn_sc6 (a rest : List Char) (ha : ('/' : Char) ∉ a) :
    splitn 6 ('/' : Char) (a ++ '/' :: rest) = a :: splitn 5 ('/' : Char) rest :=
  splitn_sep_cons 4 ('/' : Char) a rest ha

theorem splitn_sc5 (a rest : List Char) (ha : ('/' : Char) ∉ a) :
    splitn 5 ('/' : Char) (a ++ '/' :: rest) = a :: splitn 4 ('/' : Char) rest :=
  splitn_sep_cons 3 ('/' : Char) a rest ha

theorem splitn_sc4 (a rest : List Char) (ha : ('/' : Char) ∉ a) :
    splitn 4 ('/' : Char) (a ++ '/' :: rest) = a :: splitn 3 ('/' : Char) rest :=
  splitn_sep_cons 2 ('/' : Char) a rest ha

theorem splitn_sc3 (a rest : List Char) (ha : ('/' : Char) ∉ a) :
    splitn 3 ('/' : Char) (a ++ '/' :: rest) = a :: splitn 2 ('/' : Char) rest :=
  splitn_sep_cons 1 ('/' : Char) a rest ha

theorem splitn_sc2 (a rest : List Char) (ha : ('/' : Char) ∉ a) :
    splitn 2 ('/' : Char) (a ++ '/' :: rest) = a :: splitn 1 ('/' : Char) rest :=
  splitn_sep_cons 0 ('/' : Char) a rest ha

theorem splitn_renderRTA (name : List Char) (fmt : PayloadFormat)
    (h : ('/' : Char) ∉ name) :
    splitn 6 ('/' : Char) (Topic.registerThingAccepted name fmt).renderChars
      = ["$aws".toList, "provisioning-templates".toList, name, "provision".toList,
         fmt.render, "accepted".toList] := by
  have hshape : (Topic.registerThingAccepted name fmt).renderChars
      = "$aws".toList ++ '/' :: ("provisioning-templates".toList ++ '/' ::
          (name ++ '/' :: ("provision".toList ++ '/' ::
            (fmt.render ++ '/' :: "accepted".toList)))) := by
    simp [Topic.renderChars, Topic.provisioningRoot]
  rw [hshape,
    splitn_sc6 "$aws".toList _ (by decide),
    splitn_sc5 "provisioning-templates".toList _ (by decide),
    splitn_sc4 name _ h,
    splitn_sc3 "provision".toList _ (by decide),
    splitn_sc2 fmt.render _ (sep_notMem_render fmt)]
  simp [splitn]

theorem splitn_renderRTR (name : List Char) (fmt : PayloadFormat)
    (h : ('/' : Char) ∉ name) :
    splitn 6 ('/' : Char) (Topic.registerThingRejected name fmt).renderChars
      = ["$aws".toList, "provisioning-templates".toList, name, "provision".toList,
         fmt.render, "rejected".toList] := by
  have hshape : (Topic.registerThingRejected name fmt).renderChars
      = "$aws".toList ++ '/' :: ("provisioning-templates".toList ++ '/' ::
          (name ++ '/' :: ("provision".toList ++ '/' ::
            (fmt.render ++ '/' :: "rejected".toList)))) := by
    simp [Topic.renderChars, Topic.provisioningRoot]
  rw [hshape,
    splitn_sc6 "$aws".toList _ (by decide),
    splitn_sc5 "provisioning-templates".toList _ (by decide),
    splitn_sc4 name _ h,
    splitn_sc3 "provision".toList _ (by decide),
    splitn_sc2 fmt.render _ (sep_notMem_render fmt)]
  simp [splitn]

theorem fromStr_renderRTA (name : List Char) (fmt : PayloadFormat)
    (h : ('/' : Char) ∉ name) :
    Topic.fromStr (Topic.registerThingAccepted name fmt).renderChars
      = some (Topic.registerThingAccepted name fmt) := by
  rw [Topic.fromStr, splitn_renderRTA name fmt h]
  simp [Topic.fromSegments, List.get?, pf_roundtrip]

theorem fromStr_renderRTR (name : List Char) (fmt : PayloadFormat)
    (h : ('/' : Char) ∉ name) :
    Topic.fromStr (Topic.registerThingRejected name fmt).renderChars
      = some (Topic.registerThingRejected name fmt) := by
  rw [Topic.fromStr, splitn_renderRTR name fmt h]
  simp [Topic.fromSegments, List.get?, pf_roundtrip]

/-! ### Properties of the builders -/

theorem sub_topic_outgoing {N : Nat} (b : Subscribe N) (t : Topic) (q : QoS)
    (h : t.direction ≠ Direction.incoming) : b.topic t q = b := by
  simp [Subscribe.topic, h]

theorem unsub_topic_outgoing {N : Nat} (b : Unsubscribe N) (t : Topic)
    (h : t.direction ≠ Direction.incoming) : b.topic t = b := by
  simp [Unsubscribe.topic, h]

theorem sub_topic_of_mem {N : Nat} (b : Subscribe N) (t : Topic) (q q' : QoS)
    (h : (t, q') ∈ b.topics) : b.topic t q = b := by
  have hany : b.topics.any (fun p => decide (p.1 = t)) = true :=
    List.any_eq_true.mpr ⟨(t, q'), h, by simp⟩
  simp [Subscribe.topic, hany]

theorem unsub_topic_of_mem {N : Nat} (b : Unsubscribe N) (t : Topic)
    (h : t ∈ b.topics) : b.topic t = b := by
  have hany : b.topics.any (fun x => decide (x = t)) = true :=
    List.any_eq_true.mpr ⟨t, h, by simp⟩
  simp [Unsubscribe.topic, hany]

theorem sub_topic_full {N : Nat} (b : Subscribe N) (t : Topic) (q : QoS)
    (h : ¬b.topics.length < N) : b.topic t q = b := by
  simp only [Subscribe.topic]
  split_ifs <;> rfl

theorem unsub_topic_full {N : Nat} (b : Unsubscribe N) (t : Topic)
    (h : ¬b.topics.length < N) : b.topic t = b := by
  simp only [Unsubscribe.topic]
  split_ifs <;> rfl

theorem sub_topic_idem {N : Nat} (b : Subscribe N) (t : Topic) (q q' : QoS) :
    (b.topic t q).topic t q' = b.topic t q := by
  by_cases hdir : t.direction ≠ Direction.incoming
  · rw [sub_topic_outgoing b t q hdir, sub_topic_outgoing b t q' hdir]
  · by_cases hany : b.topics.any (fun p => decide (p.1 = t)) = true
    · have h1 : b.topic t q = b := by simp [Subscribe.topic, hany]
      rw [h1]
      simp [Subscribe.topic, hany]
    · by_cases hlen : b.topics.length < N
      · have h1 : b.topic t q = ⟨b.topics ++ [(t, q)]⟩ := by
          simp only [Subscribe.topic, if_neg hdir]
          rw [if_neg (by simpa using hany), if_pos hlen]
        rw [h1]
        exact sub_topic_of_mem _ t q' q (by simp)
      · rw [sub_topic_full b t q hlen, sub_topic_full b t q' hlen]

theorem unsub_topic_idem {N : Nat} (b : Unsubscribe N) (t : Topic) :
    (b.topic t).topic t = b.topic t := by
  by_cases hdir : t.direction ≠ Direction.incoming
  · rw [unsub_topic_outgoing b t hdir, unsub_topic_outgoing b t hdir]
  · by_cases hany : b.topics.any (fun x => decide (x = t)) = true
    · have h1 : b.topic t = b := by simp [Unsubscribe.topic, hany]
      rw [h1]
      simp [Unsubscribe.topic, hany]
    · by_cases hlen : b.topics.length < N
      · have h1 : b.topic t = ⟨b.topics ++ [t]⟩ := by
          simp only [Unsubscribe.topic, if_neg hdir]
          rw [if_neg (by simpa using hany), if_pos hlen]
        rw [h1]
        exact unsub_topic_of_mem _ t (by simp)
      · rw [unsub_topic_full b t hlen, unsub_topic_full b t hlen]

theorem sub_topic_inv {N : Nat} (b : Subscribe N) (t : Topic) (q : QoS)
    (h : SubscribeInv b) : SubscribeInv (b.topic t q) := by
  obtain ⟨hlen, hnd, hin⟩ := h
  by_cases hdir : t.direction ≠ Direction.incoming
  · rw [sub_topic_outgoing b t q hdir]
    exact ⟨hlen, hnd, hin⟩
  · by_cases hany : b.topics.any (fun p => decide (p.1 = t)) = true
    · have h1 : b.topic t q = b := by simp [Subscribe.topic, hany]
      rw [h1]
      exact ⟨hlen, hnd, hin⟩
    · by_cases hl : b.topics.length < N
      · have h1 : b.topic t q = ⟨b.topics ++ [(t, q)]⟩ := by
          simp only [Subscribe.topic, if_neg hdir]
          rw [if_neg (by simpa using hany), if_pos hl]
        have hnotmem : ∀ p ∈ b.topics, ¬(p : Topic × QoS).1 = t := by
          intro p hp hpt
          exact hany (List.any_eq_true.mpr ⟨p, hp, by simp [hpt]⟩)
        rw [h1]
        refine ⟨by simpa using hl, ?_, ?_⟩
        · rw [List.map_append]
          simp only [List.map_cons, List.map_nil]
          rw [List.nodup_append]
          refine ⟨hnd, List.nodup_singleton t, ?_⟩
          intro x hx hxt
          rcases List.mem_map.mp hx with ⟨p, hp, hpx⟩
          rcases List.mem_singleton.mp hxt
          exact hnotmem p hp hpx
        · intro p hp
          rcases List.mem_append.mp hp with h' | h'
          · exact hin p h'
          · rcases List.mem_singleton.mp h'
            simpa using not_not.mp hdir
      · rw [sub_topic_full b t q hl]
        exact ⟨hlen, hnd, hin⟩

theorem unsub_topic_inv {N : Nat} (b : Unsubscribe N) (t : Topic)
    (h : UnsubscribeInv b) : UnsubscribeInv (b.topic t) := by
  obtain ⟨hlen, hnd, hin⟩ := h
  by_cases hdir : t.direction ≠ Direction.incoming
  · rw [unsub_topic_outgoing b t hdir]
    exact ⟨hlen, hnd, hin⟩
  · by_cases hany : b.topics.any (fun x => decide (x = t)) = true
    · have h1 : b.topic t = b := by simp [Unsubscribe.topic, hany]
      rw [h1]
      exact ⟨hlen, hnd, hin⟩
    · by_cases hl : b.topics.length < N
      · have h1 : b.topic t = ⟨b.topics ++ [t]⟩ := by
          simp only [Unsubscribe.topic, if_neg hdir]
          rw [if_neg (by simpa using hany), if_pos hl]
        have hnotmem : ∀ x ∈ b.topics, ¬x = t := by
          intro x hx hxt
          exact hany (List.any_eq_true.mpr ⟨x, hx, by simp [hxt]⟩)
        rw [h1]
        refine ⟨by simpa using hl, ?_, ?_⟩
        · rw [List.nodup_append]
          refine ⟨hnd, List.nodup_singleton t, ?_⟩
          intro x hx hxt
          exact hnotmem x hx (List.mem_singleton.mp hxt)
        · intro x hx
          rcases List.mem_append.mp hx with h' | h'
          · exact hin x h'
          · rcases List.mem_singleton.mp h'
            simpa using not_not.mp hdir
      · rw [unsub_topic_full b t hl]
        exact ⟨hlen, hnd, hin⟩

theorem sub_ofCalls_inv (N : Nat) (calls : List (Topic × QoS)) :
    SubscribeInv (Subscribe.ofCalls N calls) := by
  rw [Subscribe.ofCalls]
  have : ∀ (l : List (Topic × QoS)) (b : Subscribe N), SubscribeInv b →
      SubscribeInv (l.foldl (fun x p => x.topic p.1 p.2) b) := by
    intro l
    induction l with
    | nil => intro b h; exact h
    | cons p rest ih =>
      intro b h
      exact ih _ (sub_topic_inv b p.1 p.2 h)
  exact this calls (Subscribe.new N) ⟨by simp [Subscribe.new], by simp [Subscribe.new],
    by simp [Subscribe.new]⟩

theorem unsub_ofCalls_inv (N : Nat) (calls : List Topic) :
    UnsubscribeInv (Unsubscribe.ofCalls N calls) := by
  rw [Unsubscribe.ofCalls]
  have : ∀ (l : List Topic) (b : Unsubscribe N), UnsubscribeInv b →
      UnsubscribeInv (l.foldl (fun x t => x.topic t) b) := by
    intro l
    induction l with
    | nil => intro b h; exact h
    | cons t rest ih =>
      intro b h
      exact ih _ (unsub_topic_inv b t h)
  exact this calls (Unsubscribe.new N) ⟨by simp [Unsubscribe.new], by simp [Unsubscribe.new],
    by simp [Unsubscribe.new]⟩

/-! ### Properties of the batching -/

theorem chunks5_join {α : Type} (l : List α) : (chunks5 l).flatten = l := by
  induction l using chunks5.induct with
  | case1 => simp [chunks5]
  | case2 a rest ih =>
    rw [chunks5]
    simp only [List.flatten_cons, ih]
    rw [show (a :: rest).take 5 = a :: rest.take 4 from rfl]
    simp [List.take_append_drop]

theorem chunks5_length {α : Type} (l : List α) :
    (chunks5 l).length = (l.length + 4) / 5 := by
  induction l using chunks5.induct with
  | case1 => simp [chunks5]
  | case2 a rest ih =>
    rw [chunks5]
    simp only [List.length_cons, ih, List.length_drop]
    have h2 : rest.length + 1 + 4 = rest.length + 5 := by omega
    rw [h2, Nat.add_div_right _ (by norm_num)]
    by_cases hr : 4 ≤ rest.length
    · have h1 : rest.length - 4 + 4 = rest.length := by omega
      rw [h1]
    · have h1 : rest.length - 4 = 0 := by omega
      rw [h1]
      have h3 : rest.length / 5 = 0 := Nat.div_eq_of_lt (by omega)
      rw [h3]

theorem chunks5_mem_size {α : Type} (l : List α) :
    ∀ c ∈ chunks5 l, 0 < c.length ∧ c.length ≤ 5 := by
  induction l using chunks5.induct with
  | case1 => simp [chunks5]
  | case2 a rest ih =>
    rw [chunks5]
    intro c hc
    rcases List.mem_cons.mp hc with h | h
    · subst h
      refine ⟨by simp, ?_⟩
      simp only [List.length_take]
      omega
    · exact ih c h

theorem chunks5_full_except_last {α : Type} (l : List α) :
    ∀ pre c post, chunks5 l = pre ++ c :: post → post ≠ [] → c.length = 5 := by
  induction l using chunks5.induct with
  | case1 =>
    intro pre c post h _
    simp [chunks5] at h
  | case2 a rest ih =>
    intro pre c post h hpost
    rw [chunks5] at h
    rcases pre with _ | ⟨p, pre⟩
    · rw [List.nil_append, List.cons.injEq] at h
      obtain ⟨hc, hpost'⟩ := h
      have h4 : 4 < rest.length := by
        by_contra hle
        have hdrop : rest.drop 4 = [] := List.drop_eq_nil_of_le (by omega)
        rw [hdrop] at hpost'
        exact hpost (by rw [← hpost']; simp [chunks5])
      rw [← hc]
      simp only [List.length_take, List.length_cons]
      omega
    · rw [List.cons_append, List.cons.injEq] at h
      exact ih pre c post h.2 hpost

theorem formatTopicsQ_ok (L : Nat) :
    ∀ (l : List (Topic × QoS)) (ps : List (List Char × QoS)),
      formatTopicsQ L l = .ok ps →
        ps = l.map (fun p => (p.1.renderChars, p.2)) := by
  intro l
  induction l with
  | nil =>
    intro ps h
    simp only [formatTopicsQ] at h
    cases h
    simp
  | cons p rest ih =>
    intro ps h
    rcases p with ⟨t, q⟩
    simp only [formatTopicsQ] at h
    cases hf : t.format L with
    | error e => rw [hf] at h; cases h
    | ok s =>
      rw [hf] at h
      cases hr : formatTopicsQ L rest with
      | error e => rw [hr] at h; cases h
      | ok tl =>
        rw [hr] at h
        cases h
        have hs : s = t.renderChars := by
          rw [Topic.format] at hf
          by_cases hL : t.renderChars.length ≤ L
          · rw [if_pos hL] at hf
            cases hf
            rfl
          · rw [if_neg hL] at hf
            cases hf
        simp only [List.map_cons, hs, ih tl hr]

theorem formatTopicsU_ok (L : Nat) :
    ∀ (l : List Topic) (ps : List (List Char)),
      formatTopicsU L l = .ok ps → ps = l.map Topic.renderChars := by
  intro l
  induction l with
  | nil =>
    intro ps h
    simp only [formatTopicsU] at h
    cases h
    simp
  | cons t rest ih =>
    intro ps h
    simp only [formatTopicsU] at h
    cases hf : t.format L with
    | error e => rw [hf] at h; cases h
    | ok s =>
      rw [hf] at h
      cases hr : formatTopicsU L rest with
      | error e => rw [hr] at h; cases h
      | ok tl =>
        rw [hr] at h
        cases h
        have hs : s = t.renderChars := by
          rw [Topic.format] at hf
          by_cases hL : t.renderChars.length ≤ L
          · rw [if_pos hL] at hf
            cases hf
            rfl
          · rw [if_neg hL] at hf
            cases hf
        simp only [List.map_cons, hs, ih tl hr]

/-! ### The cheap filter never rejects a parseable topic -/

theorem isPrefixOf_self_append (p r : List Char) : p.isPrefixOf (p ++ r) = true := by
  induction p with
  | nil => simp [List.isPrefixOf]
  | cons a p ih => simp [List.isPrefixOf, ih]

theorem fromSegments_some_head (tt : List (List Char)) (t : Topic)
    (h : Topic.fromSegments tt = some t) :
    tt.get? 0 = some "$aws".toList ∧
      (tt.get? 1 = some "provisioning-templates".toList ∨
        tt.get? 1 = some "certificates".toList) := by
  by_cases h0 : tt.get? 0 = some "$aws".toList
  · refine ⟨h0, ?_⟩
    by_cases h1 : tt.get? 1 = some "provisioning-templates".toList
    · exact Or.inl h1
    · by_cases h2 : tt.get? 1 = some "certificates".toList
      · exact Or.inr h2
      · rw [Topic.fromSegments, if_pos h0, if_neg h1, if_neg h2] at h
        cases h
  · rw [Topic.fromSegments, if_neg h0] at h
    cases h

theorem get?_zero_one (tt : List (List Char)) (a b : List Char)
    (h0 : tt.get? 0 = some a) (h1 : tt.get? 1 = some b) :
    ∃ rest, tt = a :: b :: rest := by
  rcases tt with _ | ⟨x, _ | ⟨y, rest⟩⟩
  · cases h0
  · cases h1
  · simp only [List.get?] at h0 h1
    cases h0
    cases h1
    exact ⟨rest, rfl⟩

theorem joinSep_head_append (sep : Char) (b : List Char) (rest : List (List Char)) :
    ∃ x, joinSep sep (b :: rest) = b ++ x := by
  cases rest with
  | nil => exact ⟨[], by simp [joinSep]⟩
  | cons c r => exact ⟨sep :: joinSep sep (c :: r), by simp [joinSep]⟩

theorem check_of_fromStr (s : List Char) (t : Topic)
    (h : Topic.fromStr s = some t) : Topic.check s = true := by
  rw [Topic.fromStr] at h
  obtain ⟨h0, h1⟩ := fromSegments_some_head _ _ h
  have hjoin : joinSep ('/' : Char) (splitn 6 ('/' : Char) s) = s :=
    joinSep_splitn ('/' : Char) s 5
  rcases h1 with h1 | h1
  · obtain ⟨rest, hrest⟩ := get?_zero_one _ _ _ h0 h1
    rw [hrest] at hjoin
    obtain ⟨x, hx⟩ := joinSep_head_append ('/' : Char) "provisioning-templates".toList rest
    have hs : s = Topic.provisioningRoot ++ x := by
      rw [← hjoin,
        show joinSep ('/' : Char)
            ("$aws".toList :: "provisioning-templates".toList :: rest)
          = "$aws".toList ++ '/' ::
              joinSep ('/' : Char) ("provisioning-templates".toList :: rest) from rfl,
        hx,
        show Topic.provisioningRoot
          = "$aws".toList ++ '/' :: "provisioning-templates".toList from by decide]
      simp [List.append_assoc]
    rw [hs, Topic.check]
    simp [isPrefixOf_self_append]
  · obtain ⟨rest, hrest⟩ := get?_zero_one _ _ _ h0 h1
    rw [hrest] at hjoin
    obtain ⟨x, hx⟩ := joinSep_head_append ('/' : Char) "certificates".toList rest
    have hs : s = Topic.certRoot ++ x := by
      rw [← hjoin,
        show joinSep ('/' : Char) ("$aws".toList :: "certificates".toList :: rest)
          = "$aws".toList ++ '/' ::
              joinSep ('/' : Char) ("certificates".toList :: rest) from rfl,
        hx,
        show Topic.certRoot
          = "$aws".toList ++ '/' :: "certificates".toList from by decide]
      simp [List.append_assoc]
    rw [hs, Topic.check]
    simp [isPrefixOf_self_append]

/-! ### Claims -/

/-- C7: `Topic::check` returns true exactly when the topic string begins
with `$aws/certificates` or with `$aws/provisioning-templates`; in
particular it is true on `$aws/certificates/anything` and false on
`$notaws/certificates/create/json/accepted`. -/
theorem claim_c7_check_filter :
    (∀ s : List Char,
      Topic.check s
        = ("$aws/certificates".toList.isPrefixOf s
            || "$aws/provisioning-templates".toList.isPrefixOf s)) ∧
    Topic.check "$aws/certificates/anything".toList = true ∧
    Topic.check "$notaws/certificates/create/json/accepted".toList = false := by
  refine ⟨fun s => rfl, by decide, by decide⟩

/-- C8: the topic-segment rendering of `PayloadFormat` maps `Cbor` to
`cbor` and `Json` to `json` and is total; parsing a segment succeeds
exactly on the strings `cbor` and `json`, yielding the matching variant,
and fails on every other string. -/
theorem claim_c8_payload_format :
    PayloadFormat.render PayloadFormat.cbor = "cbor".toList ∧
    PayloadFormat.render PayloadFormat.json = "json".toList ∧
    (∀ (s : List Char) (f : PayloadFormat),
      PayloadFormat.fromStr s = some f ↔
        (s = "cbor".toList ∧ f = PayloadFormat.cbor) ∨
          (s = "json".toList ∧ f = PayloadFormat.json)) := by
  refine ⟨rfl, rfl, ?_⟩
  intro s f
  have hne : "cbor".toList ≠ "json".toList := by decide
  simp only [PayloadFormat.fromStr]
  split_ifs with h1 h2
  · subst h1
    cases f <;> simp [hne]
  · subst h2
    cases f <;> simp [hne.symm]
  · constructor
    · intro hcon
      cases hcon
    · intro hcon
      rcases hcon with ⟨hs, _⟩ | ⟨hs, _⟩
      · exact absurd hs h1
      · exact absurd hs h2

/-- C2 (counterexample): a string with an extra trailing segment after a
certificate-family response shape is outside the six-shape grammar yet is
parsed successfully by `Topic::from_str`. -/
theorem claim_c2_counterexample :
    Topic.fromStr "$aws/certificates/create/json/accepted/extra".toList
        = some (Topic.createKeysAndCertificateAccepted PayloadFormat.json) ∧
    specGrammar "$aws/certificates/create/json/accepted/extra".toList = false := by
  constructor <;> decide

/-- C2 (amended): `Topic::from_str` succeeds exactly on the strings whose
segmentation matches the six grammar shapes, except that the
certificate-family shapes additionally tolerate arbitrary extra trailing
segments (only the first five segments are inspected, because
`splitn(6, '/')` parks the remainder in an uninspected sixth piece); in
particular a `<fmt>` segment other than `cbor`/`json` fails the whole
match. -/
theorem claim_c2_parse_domain :
    ∀ s : List Char,
      (Topic.fromStr s).isSome = grammarExtSegments (splitAll ('/' : Char) s) :=
  fromStr_isSome_eq

/-- C9: the cheap prefix filter never rejects a string that the full
parser accepts. -/
theorem claim_c9_filter_complete (s : List Char) (t : Topic)
    (h : Topic.fromStr s = some t) : Topic.check s = true :=
  check_of_fromStr s t h

theorem claim_c9_filter_complete_witness :
    Topic.check "$aws/certificates/create/json/accepted".toList = true :=
  claim_c9_filter_complete "$aws/certificates/create/json/accepted".toList
    (Topic.createKeysAndCertificateAccepted PayloadFormat.json) (by decide)

/-- C5: adding an outgoing-direction topic to a `Subscribe` or
`Unsubscribe` builder returns the builder unchanged. -/
theorem claim_c5_directionality :
    (∀ (N : Nat) (b : Subscribe N) (t : Topic) (q : QoS),
      t.direction = Direction.outgoing → b.topic t q = b) ∧
    (∀ (N : Nat) (b : Unsubscribe N) (t : Topic),
      t.direction = Direction.outgoing → b.topic t = b) := by
  constructor
  · intro N b t q h
    exact sub_topic_outgoing b t q (by simp [h])
  · intro N b t h
    exact unsub_topic_outgoing b t (by simp [h])

theorem claim_c5_directionality_witness :
    Subscribe.topic (N := 4) (Subscribe.new 4)
        (Topic.registerThing "t".toList PayloadFormat.json) QoS.atMostOnce
      = Subscribe.new 4 :=
  claim_c5_directionality.1 4 (Subscribe.new 4)
    (Topic.registerThing "t".toList PayloadFormat.json) QoS.atMostOnce (by decide)

/-- C10: when a topic is already stored with some quality of service, a
further `topic` call with a different quality of service leaves the whole
builder unchanged — the new QoS is discarded. -/
theorem claim_c10_qos_preserved (N : Nat) (b : Subscribe N) (t : Topic)
    (q1 q2 : QoS) (h : (t, q1) ∈ b.topics) : b.topic t q2 = b :=
  sub_topic_of_mem b t q2 q1 h

theorem claim_c10_qos_preserved_witness :
    Subscribe.topic (N := 2)
        ⟨[(Topic.createKeysAndCertificateAccepted PayloadFormat.json, QoS.atMostOnce)]⟩
        (Topic.createKeysAndCertificateAccepted PayloadFormat.json) QoS.atLeastOnce
      = ⟨[(Topic.createKeysAndCertificateAccepted PayloadFormat.json, QoS.atMostOnce)]⟩ :=
  claim_c10_qos_preserved 2
    ⟨[(Topic.createKeysAndCertificateAccepted PayloadFormat.json, QoS.atMostOnce)]⟩
    (Topic.createKeysAndCertificateAccepted PayloadFormat.json)
    QoS.atMostOnce QoS.atLeastOnce (by decide)

/-- C6: a duplicate topic is never stored — adding an already-present
topic returns the builder unchanged, adding the same topic twice stores it
once, and every reachable builder state has pairwise-distinct stored
topics. -/
theorem claim_c6_dedup :
    (∀ (N : Nat) (b : Subscribe N) (t : Topic) (q1 q2 : QoS),
      (t, q1) ∈ b.topics → b.topic t q2 = b) ∧
    (∀ (N : Nat) (b : Subscribe N) (t : Topic) (q q' : QoS),
      (b.topic t q).topic t q' = b.topic t q) ∧
    (∀ (N : Nat) (calls : List (Topic × QoS)),
      ((Subscribe.ofCalls N calls).topics.map Prod.fst).Nodup) ∧
    (∀ (N : Nat) (b : Unsubscribe N) (t : Topic), t ∈ b.topics → b.topic t = b) ∧
    (∀ (N : Nat) (b : Unsubscribe N) (t : Topic), (b.topic t).topic t = b.topic t) ∧
    (∀ (N : Nat) (calls : List Topic), (Unsubscribe.ofCalls N calls).topics.Nodup) := by
  refine ⟨?_, ?_, ?_, ?_, ?_, ?_⟩
  · intro N b t q1 q2 h
    exact sub_topic_of_mem b t q2 q1 h
  · intro N b t q q'
    exact sub_topic_idem b t q q'
  · intro N calls
    exact (sub_ofCalls_inv N calls).2.1
  · intro N b t h
    exact unsub_topic_of_mem b t h
  · intro N b t
    exact unsub_topic_idem b t
  · intro N calls
    exact (unsub_ofCalls_inv N calls).2.1

theorem claim_c6_dedup_witness :
    Subscribe.topic (N := 3)
        ⟨[(Topic.registerThingAccepted "x".toList PayloadFormat.cbor, QoS.atMostOnce)]⟩
        (Topic.registerThingAccepted "x".toList PayloadFormat.cbor) QoS.atMostOnce
      = ⟨[(Topic.registerThingAccepted "x".toList PayloadFormat.cbor, QoS.atMostOnce)]⟩ :=
  claim_c6_dedup.1 3
    ⟨[(Topic.registerThingAccepted "x".toList PayloadFormat.cbor, QoS.atMostOnce)]⟩
    (Topic.registerThingAccepted "x".toList PayloadFormat.cbor)
    QoS.atMostOnce QoS.atMostOnce (by decide)

/-- C3: every reachable builder stores at most `N` entries, and a `topic`
call on a builder already holding `N` entries returns it unchanged without
raising an error. -/
theorem claim_c3_capacity :
    (∀ (N : Nat) (calls : List (Topic × QoS)),
      (Subscribe.ofCalls N calls).topics.length ≤ N) ∧
    (∀ (N : Nat) (b : Subscribe N) (t : Topic) (q : QoS),
      b.topics.length = N → b.topic t q = b) ∧
    (∀ (N : Nat) (calls : List Topic),
      (Unsubscribe.ofCalls N calls).topics.length ≤ N) ∧
    (∀ (N : Nat) (b : Unsubscribe N) (t : Topic),
      b.topics.length = N → b.topic t = b) := by
  refine ⟨?_, ?_, ?_, ?_⟩
  · intro N calls
    exact (sub_ofCalls_inv N calls).1
  · intro N b t q h
    exact sub_topic_full b t q (by omega)
  · intro N calls
    exact (unsub_ofCalls_inv N calls).1
  · intro N b t h
    exact unsub_topic_full b t (by omega)

theorem claim_c3_capacity_witness :
    Subscribe.topic (N := 1)
        ⟨[(Topic.createKeysAndCertificateAccepted PayloadFormat.json, QoS.atMostOnce)]⟩
        (Topic.createKeysAndCertificateRejected PayloadFormat.json) QoS.atMostOnce
      = ⟨[(Topic.createKeysAndCertificateAccepted PayloadFormat.json, QoS.atMostOnce)]⟩ :=
  claim_c3_capacity.2.1 1
    ⟨[(Topic.createKeysAndCertificateAccepted PayloadFormat.json, QoS.atMostOnce)]⟩
    (Topic.createKeysAndCertificateRejected PayloadFormat.json) QoS.atMostOnce (by rfl)

/-- C4: `send` is a no-call success on an empty builder; otherwise, when
every stored topic formats successfully, it issues exactly
`ceil(k/5) = (k+4)/5` batched calls whose concatenation covers the stored
topics in insertion order, every batch nonempty of size at most 5 and
every batch before the last of size exactly 5; this holds for `Subscribe`
and `Unsubscribe` alike. -/
theorem claim_c4_batching :
    (∀ (N : Nat) (b : Subscribe N), b.topics = [] → b.send = Except.ok []) ∧
    (∀ (N : Nat) (b : Subscribe N) (paths : List (List Char × QoS)),
      b.topicsFmt = Except.ok paths →
        b.send = Except.ok (chunks5 paths) ∧
        paths = b.topics.map (fun p => (p.1.renderChars, p.2)) ∧
        (chunks5 paths).length = (b.topics.length + 4) / 5 ∧
        (chunks5 paths).flatten = paths ∧
        (∀ c ∈ chunks5 paths, 0 < c.length ∧ c.length ≤ 5) ∧
        (∀ pre c post, chunks5 paths = pre ++ c :: post → post ≠ [] →
          c.length = 5)) ∧
    (∀ (N : Nat) (b : Unsubscribe N), b.topics = [] → b.send = Except.ok []) ∧
    (∀ (N : Nat) (b : Unsubscribe N) (paths : List (List Char)),
      b.topicsFmt = Except.ok paths →
        b.send = Except.ok (chunks5 paths) ∧
        paths = b.topics.map Topic.renderChars ∧
        (chunks5 paths).length = (b.topics.length + 4) / 5 ∧
        (chunks5 paths).flatten = paths ∧
        (∀ c ∈ chunks5 paths, 0 < c.length ∧ c.length ≤ 5) ∧
        (∀ pre c post, chunks5 paths = pre ++ c :: post → post ≠ [] →
          c.length = 5)) := by
  refine ⟨?_, ?_, ?_, ?_⟩
  · intro N b h
    rw [Subscribe.send, if_pos h]
  · intro N b paths h
    have hmap : paths = b.topics.map (fun p => (p.1.renderChars, p.2)) :=
      formatTopicsQ_ok 128 b.topics paths h
    have hsend : b.send = Except.ok (chunks5 paths) := by
      by_cases he : b.topics = []
      · rw [Subscribe.send, if_pos he, hmap, he]
        simp [chunks5]
      · rw [Subscribe.send, if_neg he, h]
    refine ⟨hsend, hmap, ?_, chunks5_join paths, chunks5_mem_size paths,
      chunks5_full_except_last paths⟩
    rw [chunks5_length, hmap]
    simp
  · intro N b h
    rw [Unsubscribe.send, if_pos h]
  · intro N b paths h
    have hmap : paths = b.topics.map Topic.renderChars :=
      formatTopicsU_ok 256 b.topics paths h
    have hsend : b.send = Except.ok (chunks5 paths) := by
      by_cases he : b.topics = []
      · rw [Unsubscribe.send, if_pos he, hmap, he]
        simp [chunks5]
      · rw [Unsubscribe.send, if_neg he, h]
    refine ⟨hsend, hmap, ?_, chunks5_join paths, chunks5_mem_size paths,
      chunks5_full_except_last paths⟩
    rw [chunks5_length, hmap]
    simp

theorem claim_c4_batching_witness :
    subSeven.send = Except.ok (chunks5 subSevenPaths) ∧
    (chunks5 subSevenPaths).length = 2 := by
  have h := claim_c4_batching.2.1 7 subSeven subSevenPaths (by rfl)
  refine ⟨h.1, ?_⟩
  rw [h.2.2.1]
  rfl

/-- C1 (counterexample): for the outgoing variant `RegisterThing` and for
the response variant `CreateCertificateFromCsrAccepted`, formatting into an
ample buffer succeeds but `from_str` on the result returns `None`, not the
original topic — the round-trip fails (for the latter because `format`
omits the `/accepted` suffix its own doc comment prescribes). -/
theorem claim_c1_counterexample :
    (Topic.registerThing "t".toList PayloadFormat.json).format 128
        = Except.ok "$aws/provisioning-templates/t/provision/json".toList ∧
    Topic.fromStr "$aws/provisioning-templates/t/provision/json".toList = none ∧
    (Topic.createCertificateFromCsrAccepted PayloadFormat.json).format 128
        = Except.ok "$aws/certificates/create-from-csr/json".toList ∧
    Topic.fromStr "$aws/certificates/create-from-csr/json".toList = none ∧
    (Topic.registerThingAccepted "a/b".toList PayloadFormat.json).format 128
        = Except.ok
            "$aws/provisioning-templates/a/b/provision/json/accepted".toList ∧
    Topic.fromStr
        "$aws/provisioning-templates/a/b/provision/json/accepted".toList = none := by
  refine ⟨rfl, by decide, rfl, by decide, rfl, by decide⟩

/-- C1 (amended): the round-trip `format` → `from_str` → equal value holds
exactly for the four variants `RegisterThingAccepted`,
`RegisterThingRejected`, `CreateKeysAndCertificateAccepted` and
`CreateKeysAndCertificateRejected` — for any template name free of `/` and
either payload format, with any buffer capacity at least the rendered
length.  The three outgoing variants are not in `from_str`'s grammar, and
the two `CreateCertificateFromCsr` response variants format without their
`/accepted`/`/rejected` suffix, so none of those five round-trip. -/
theorem claim_c1_roundtrip_amended :
    (∀ (name : List Char) (fmt : PayloadFormat) (L : Nat),
      ('/' : Char) ∉ name →
      (Topic.registerThingAccepted name fmt).renderChars.length ≤ L →
        (Topic.registerThingAccepted name fmt).format L
            = Except.ok (Topic.registerThingAccepted name fmt).renderChars ∧
        Topic.fromStr (Topic.registerThingAccepted name fmt).renderChars
            = some (Topic.registerThingAccepted name fmt)) ∧
    (∀ (name : List Char) (fmt : PayloadFormat) (L : Nat),
      ('/' : Char) ∉ name →
      (Topic.registerThingRejected name fmt).renderChars.length ≤ L →
        (Topic.registerThingRejected name fmt).format L
            = Except.ok (Topic.registerThingRejected name fmt).renderChars ∧
        Topic.fromStr (Topic.registerThingRejected name fmt).renderChars
            = some (Topic.registerThingRejected name fmt)) ∧
    (∀ (fmt : PayloadFormat) (L : Nat),
      (Topic.createKeysAndCertificateAccepted fmt).renderChars.length ≤ L →
        (Topic.createKeysAndCertificateAccepted fmt).format L
            = Except.ok (Topic.createKeysAndCertificateAccepted fmt).renderChars ∧
        Topic.fromStr (Topic.createKeysAndCertificateAccepted fmt).renderChars
            = some (Topic.createKeysAndCertificateAccepted fmt)) ∧
    (∀ (fmt : PayloadFormat) (L : Nat),
      (Topic.createKeysAndCertificateRejected fmt).renderChars.length ≤ L →
        (Topic.createKeysAndCertificateRejected fmt).format L
            = Except.ok (Topic.createKeysAndCertificateRejected fmt).renderChars ∧
        Topic.fromStr (Topic.createKeysAndCertificateRejected fmt).renderChars
            = some (Topic.createKeysAndCertificateRejected fmt)) := by
  refine ⟨?_, ?_, ?_, ?_⟩
  · intro name fmt L hname hL
    exact ⟨by rw [Topic.format, if_pos hL], fromStr_renderRTA name fmt hname⟩
  · intro name fmt L hname hL
    exact ⟨by rw [Topic.format, if_pos hL], fromStr_renderRTR name fmt hname⟩
  · intro fmt L hL
    refine ⟨by rw [Topic.format, if_pos hL], ?_⟩
    cases fmt <;> decide
  · intro fmt L hL
    refine ⟨by rw [Topic.format, if_pos hL], ?_⟩
    cases fmt <;> decide

theorem claim_c1_roundtrip_amended_witness :
    (Topic.registerThingAccepted "t".toList PayloadFormat.json).format 128
        = Except.ok
            (Topic.registerThingAccepted "t".toList PayloadFormat.json).renderChars ∧
    Topic.fromStr
        (Topic.registerThingAccepted "t".toList PayloadFormat.json).renderChars
      = some (Topic.registerThingAccepted "t".toList PayloadFormat.json) :=
  claim_c1_roundtrip_amended.1 "t".toList PayloadFormat.json 128
    (by decide) (by decide)
